import Mathlib

set_option maxHeartbeats 1000000

/-!
Shallow embedding of the gobblet rules engine (crate `gobblet`):
`player.rs`, `piece.rs`, `board.rs`, `game_move.rs`, `game.rs`.
Rust `usize`/`u8` values are modelled as `Nat`; the in-range board
index held by `Cell` is modelled as `Fin 9`, the invariant the Rust
constructor `Cell::new` maintains.  Fallible functions return `Except`.
-/

/-- Embeds `Player` from `player.rs`. -/
inductive Player where
  | one
  | two
deriving DecidableEq, Repr, Fintype

/-- Embeds `impl Not for Player` (`!player`) from `player.rs`. -/
def Player.not : Player → Player
  | .one => .two
  | .two => .one

/-- Embeds `Size` from `piece.rs` (discriminants Small = 1, Medium = 2, Large = 3). -/
inductive Size where
  | small
  | medium
  | large
deriving DecidableEq, Repr, Fintype

/-- The numeric discriminant of a `Size`; the derived Rust `Ord` compares these. -/
def Size.val : Size → Nat
  | .small => 1
  | .medium => 2
  | .large => 3

/-- Embeds `Cell` from `board.rs`: a board index `row * 3 + col`, in range by construction. -/
structure Cell where
  idx : Fin 9
deriving DecidableEq, Repr, Fintype

/-- Embeds `CellError` from `board.rs`. -/
inductive CellError where
  | RowOutOfBounds
  | ColumnOutOfBounds
deriving DecidableEq, Repr

/-- Embeds `Cell::new` from `board.rs`. -/
def Cell.new (row col : Nat) : Except CellError Cell :=
  if h : 2 < row then Except.error CellError.RowOutOfBounds
  else if h' : 2 < col then Except.error CellError.ColumnOutOfBounds
  else Except.ok ⟨⟨row * 3 + col, by omega⟩⟩

/-- Embeds `Cell::row` from `board.rs`. -/
def Cell.row (c : Cell) : Nat := c.idx.val / 3

/-- Embeds `Cell::col` from `board.rs`. -/
def Cell.col (c : Cell) : Nat := c.idx.val % 3

/-- Embeds `CellState` from `board.rs`. -/
structure CellState where
  small : Option Player
  medium : Option Player
  large : Option Player
deriving DecidableEq, Repr, Fintype

/-- The empty cell, i.e. `CellState::default()`. -/
def CellState.init : CellState := ⟨none, none, none⟩

/-- Embeds `CellState::controlled_by` from `board.rs`:
`self.large.or(self.medium).or(self.small)`. -/
def CellState.controlled_by (cs : CellState) : Option Player :=
  (cs.large.or cs.medium).or cs.small

/-- Embeds `CellState::size` from `board.rs` (largest occupied size). -/
def CellState.size (cs : CellState) : Option Size :=
  if cs.large.isSome then some Size.large
  else if cs.medium.isSome then some Size.medium
  else if cs.small.isSome then some Size.small
  else none

/-- Embeds `impl Index<Size> for CellState`. -/
def CellState.get (cs : CellState) : Size → Option Player
  | .small => cs.small
  | .medium => cs.medium
  | .large => cs.large

/-- Embeds `impl IndexMut<Size> for CellState` followed by an assignment. -/
def CellState.set (cs : CellState) : Size → Option Player → CellState
  | .small, v => { cs with small := v }
  | .medium, v => { cs with medium := v }
  | .large, v => { cs with large := v }

/-- Embeds `Board` from `board.rs`: an array of 9 `CellState`s indexed by `Cell`. -/
structure Board where
  cells : Cell → CellState

/-- `Board::default()`: all cells empty. -/
def Board.init : Board := ⟨fun _ => CellState.init⟩

instance : DecidableEq Board := fun a b =>
  match a, b with
  | ⟨f⟩, ⟨g⟩ =>
    if h : f = g then Decidable.isTrue (by rw [h]) else Decidable.isFalse (by
      intro hc
      cases hc
      exact h rfl)

/-- Embeds `Board::cells` from `board.rs`: all cells with their states, in index order. -/
def Board.cellsList (b : Board) : List (Cell × CellState) :=
  (List.finRange 9).map (fun i => (⟨i⟩, b.cells ⟨i⟩))

/-- Embeds `Line` from `board.rs`. -/
inductive Line where
  | Row (r : Nat)
  | Col (c : Nat)
  | DiagonalUp
  | DiagonalDown
deriving DecidableEq, Repr

/-- Embeds `Line::matches` from `board.rs`. -/
def Line.matches : Line → Cell → Bool
  | .Row r, cell => cell.row == r
  | .Col c, cell => cell.col == c
  | .DiagonalUp, cell => cell.row + cell.col == 2
  | .DiagonalDown, cell => cell.row == cell.col

/-- Embeds `Line::all` from `board.rs`: rows, then columns, then the two diagonals. -/
def Line.all : List Line :=
  ((List.range 3).map Line.Row) ++ ((List.range 3).map Line.Col)
    ++ [Line.DiagonalUp] ++ [Line.DiagonalDown]

/-- Embeds `Board::line` from `board.rs`: `self.cells().filter(|(c, _)| line.matches(c))`. -/
def Board.line (b : Board) (l : Line) : List (Cell × CellState) :=
  b.cellsList.filter (fun p => l.matches p.fst)

/-- Writing one size slot of one cell: `board[cell][size] = value` in `game.rs`. -/
def Board.write (b : Board) (c : Cell) (s : Size) (v : Option Player) : Board :=
  ⟨fun c' => if c' = c then (b.cells c').set s v else b.cells c'⟩

/-- Embeds `Move` from `game_move.rs`. -/
structure Move where
  player : Player
  size : Size
  source : Option Cell
  target : Cell
deriving DecidableEq, Repr, Fintype

/-- Embeds `Victory` from `game.rs`. -/
structure Victory where
  player : Player
  line : Line
deriving DecidableEq, Repr

/-- Embeds `Iterator::reduce` as used in `look_for_victory`:
first element is the accumulator, then fold. -/
def reduceWinner : List (Option Player) → Option (Option Player)
  | [] => none
  | x :: xs => some (xs.foldl (fun acc curr => if acc = curr then acc else none) x)

/-- The per-line winner computation inside `look_for_victory` in `game.rs`:
`board.line(line).map(|(_, state)| state.controlled_by()).reduce(..).flatten()`. -/
def lineWinner (b : Board) (l : Line) : Option Player :=
  (reduceWinner ((b.line l).map (fun p => p.snd.controlled_by))).join

/-- The loop of `look_for_victory` in `game.rs`, with the running
`win_for_last_moving_player` accumulator made explicit. -/
def lookForVictoryAux (b : Board) (mover : Player) :
    Option Line → List Line → Option Victory
  | acc, [] => acc.map (fun line => { player := mover, line := line })
  | acc, l :: rest =>
    match lineWinner b l with
    | none => lookForVictoryAux b mover acc rest
    | some w =>
      if w = mover.not then some { player := mover.not, line := l }
      else lookForVictoryAux b mover (if acc.isNone then some l else acc) rest

/-- Embeds `look_for_victory` from `game.rs`. -/
def lookForVictory (b : Board) (mover : Player) : Option Victory :=
  lookForVictoryAux b mover none Line.all

/-- Embeds `Game` from `game.rs`. -/
structure Game where
  board : Board
  moves : List Move
  victory : Option Victory

/-- `Game::default()`: empty board, no moves, no victory. -/
def Game.init : Game := ⟨Board.init, [], none⟩

/-- Embeds `STARTING_INVENTORY` from `game.rs`. -/
def STARTING_INVENTORY : Nat := 2

/-- Embeds `Game::next_player` from `game.rs`. -/
def Game.nextPlayer (g : Game) : Player :=
  (g.moves.getLast?.map (fun m => m.player.not)).getD Player.one

/-- Embeds `SubmitMoveError` from `game.rs`. -/
inductive SubmitMoveError where
  | GameOver
  | OutOfTurn
  | PieceNotAtSource
  | PieceNotInInventory
  | PieceBlockedAtSource
  | TargetBlocked
deriving DecidableEq, Repr

/-- The `in_play` count inside `Game::submit`:
`self.board.cells().filter(|(_, state)| state[mv.size] == Some(mv.player)).count()`. -/
def inPlayCount (b : Board) (p : Player) (s : Size) : Nat :=
  (b.cellsList.filter (fun x => x.snd.get s = some p)).length

/-- The board mutation performed by an accepted move in `Game::submit`:
clear the source slot (if any), then set the target slot. -/
def applyMove (b : Board) (m : Move) : Board :=
  (match m.source with
   | some src => b.write src m.size none
   | none => b).write m.target m.size (some m.player)

/-- The tail of `Game::submit` from the destination check onwards
(`game.rs` lines 82–98). -/
def finishMove (g : Game) (m : Move) : Game × Except SubmitMoveError (Option Victory) :=
  if ((g.board.cells m.target).size.map
        (fun destSize => decide (m.size.val ≤ destSize.val))).getD false then
    (g, Except.error SubmitMoveError.TargetBlocked)
  else
    ({ board := applyMove g.board m, moves := g.moves ++ [m],
       victory := lookForVictory (applyMove g.board m) m.player },
     Except.ok (lookForVictory (applyMove g.board m) m.player))

/-- Embeds `Game::submit` from `game.rs`.  Rust mutates `&mut self` and returns a
`Result`; here the (possibly unchanged) game is returned alongside the result. -/
def submit (g : Game) (m : Move) : Game × Except SubmitMoveError (Option Victory) :=
  if g.victory.isSome then
    (g, Except.error SubmitMoveError.GameOver)
  else if g.nextPlayer ≠ m.player then
    (g, Except.error SubmitMoveError.OutOfTurn)
  else
    match m.source with
    | some source =>
      if (g.board.cells source).get m.size ≠ some m.player then
        (g, Except.error SubmitMoveError.PieceNotAtSource)
      else if ((g.board.cells source).size.map
          (fun srcSize => decide (m.size.val < srcSize.val))).getD false then
        (g, Except.error SubmitMoveError.PieceBlockedAtSource)
      else
        finishMove g m
    | none =>
      if STARTING_INVENTORY ≤ inPlayCount g.board m.player m.size then
        (g, Except.error SubmitMoveError.PieceNotInInventory)
      else
        finishMove g m

/-- Rust `char::is_ascii_whitespace`, the separator set of `str::split_ascii_whitespace`. -/
def isAsciiWhitespace (c : Char) : Bool :=
  c == ' ' || c == '\t' || c == '\n' || c == '\x0C' || c == '\r'

/-- Accumulating worker for `splitAsciiWhitespace`; `cur` holds the current
word reversed. -/
def wsSplitAux : List Char → List Char → List (List Char)
  | [], cur => if cur.isEmpty then [] else [cur.reverse]
  | c :: rest, cur =>
    if isAsciiWhitespace c then
      if cur.isEmpty then wsSplitAux rest []
      else cur.reverse :: wsSplitAux rest []
    else wsSplitAux rest (c :: cur)

/-- Embeds `str::split_ascii_whitespace` (collected to a `Vec`), with Rust `&str`
modelled as `List Char`. -/
def splitAsciiWhitespace (s : List Char) : List (List Char) :=
  wsSplitAux s []

/-- Embeds `str::split_once(",")` for the single-character pattern used in `parse_cell`. -/
def splitOnceComma : List Char → Option (List Char × List Char)
  | [] => none
  | c :: rest =>
    if c = ',' then some ([], rest)
    else (splitOnceComma rest).map (fun p => (c :: p.fst, p.snd))

/-- Digit-accumulating worker for `parseU8`; fails on a non-digit or on overflow
past `u8::MAX`, as `u8::from_str` does. -/
def parseU8Aux : List Char → Nat → Option Nat
  | [], acc => some acc
  | c :: rest, acc =>
    if 48 ≤ c.toNat ∧ c.toNat ≤ 57 then
      let v := acc * 10 + (c.toNat - 48)
      if v ≤ 255 then parseU8Aux rest v else none
    else none

/-- Embeds `str::parse::<u8>()`: an optional leading plus sign, then one or more
decimal digits, value at most 255. -/
def parseU8 (s : List Char) : Option Nat :=
  let digits := match s with
    | '+' :: rest => rest
    | other => other
  if digits.isEmpty then none else parseU8Aux digits 0

/-- Embeds `ParseCellError` from `game_move.rs`. -/
inductive ParseCellError where
  | TooFewParts
  | InvalidRow
  | InvalidColumn
  | OutOfBounds (e : CellError)
deriving DecidableEq, Repr

/-- Embeds `parse_cell` from `game_move.rs`. -/
def parseCell (s : List Char) : Except ParseCellError Cell :=
  match splitOnceComma s with
  | none => Except.error ParseCellError.TooFewParts
  | some (r, c) =>
    match parseU8 r with
    | none => Except.error ParseCellError.InvalidRow
    | some row =>
      match parseU8 c with
      | none => Except.error ParseCellError.InvalidColumn
      | some col =>
        match Cell.new row col with
        | Except.error e => Except.error (ParseCellError.OutOfBounds e)
        | Except.ok cell => Except.ok cell

/-- Embeds `parse_source` from `game_move.rs`. -/
def parseSource (s : List Char) : Except ParseCellError (Option Cell) :=
  if s = ['_'] then Except.ok none
  else (parseCell s).map some

/-- Embeds `ParseMoveError` from `game_move.rs`. -/
inductive ParseMoveError where
  | TooFewParts (n : Nat)
  | TooManyParts (n : Nat)
  | InvalidPlayer
  | InvalidSize
  | InvalidSource (e : ParseCellError)
  | InvalidTarget (e : ParseCellError)
deriving DecidableEq, Repr

/-- Embeds `parse_player` from `game_move.rs`. -/
def parsePlayer (p : List Char) : Except ParseMoveError Player :=
  if p = ['P', '1'] ∨ p = ['p', '1'] then Except.ok Player.one
  else if p = ['P', '2'] ∨ p = ['p', '2'] then Except.ok Player.two
  else Except.error ParseMoveError.InvalidPlayer

/-- Embeds `parse_size` from `game_move.rs`. -/
def parseSize (s : List Char) : Except ParseMoveError Size :=
  if s = ['S'] ∨ s = ['s'] then Except.ok Size.small
  else if s = ['M'] ∨ s = ['m'] then Except.ok Size.medium
  else if s = ['L'] ∨ s = ['l'] then Except.ok Size.large
  else Except.error ParseMoveError.InvalidSize

/-- Embeds `impl FromStr for Move` from `game_move.rs`. -/
def Move.fromStr (s : List Char) : Except ParseMoveError Move :=
  let parts := splitAsciiWhitespace s
  let numParts := parts.length
  if numParts < 5 then Except.error (ParseMoveError.TooFewParts numParts)
  else if 5 < numParts then Except.error (ParseMoveError.TooManyParts numParts)
  else
    match parsePlayer (parts.getD 0 []) with
    | Except.error e => Except.error e
    | Except.ok player =>
      match parseSize (parts.getD 1 []) with
      | Except.error e => Except.error e
      | Except.ok size =>
        match parseSource (parts.getD 2 []) with
        | Except.error e => Except.error (ParseMoveError.InvalidSource e)
        | Except.ok source =>
          match parseCell (parts.getD 4 []) with
          | Except.error e => Except.error (ParseMoveError.InvalidTarget e)
          | Except.ok target => Except.ok { player, size, source, target }

/-- Embeds `impl Display for Player` (non-alternate form, `"Player 1"`). -/
def Player.displayChars : Player → List Char
  | .one => ['P', 'l', 'a', 'y', 'e', 'r', ' ', '1']
  | .two => ['P', 'l', 'a', 'y', 'e', 'r', ' ', '2']

/-- Embeds `impl Display for Size` (non-alternate form, `"Small"` etc.). -/
def Size.displayChars : Size → List Char
  | .small => ['S', 'm', 'a', 'l', 'l']
  | .medium => ['M', 'e', 'd', 'i', 'u', 'm']
  | .large => ['L', 'a', 'r', 'g', 'e']

/-- Embeds `impl Display for Cell` (`"r{row}c{col}"`; row and col are single digits). -/
def Cell.displayChars (c : Cell) : List Char :=
  ['r', Char.ofNat (48 + c.row), 'c', Char.ofNat (48 + c.col)]

/-- Embeds `impl Display for Move` from `game_move.rs`:
`"{player}: {size} {source-or-Inventory} > {target}"`. -/
def Move.display (m : Move) : List Char :=
  m.player.displayChars ++ [':', ' '] ++ m.size.displayChars ++ [' ']
    ++ (match m.source with
        | some src => src.displayChars
        | none => ['I', 'n', 'v', 'e', 'n', 't', 'o', 'r', 'y'])
    ++ [' ', '>', ' '] ++ m.target.displayChars

/-- Modelled from the spec: the move text format of §6 (`<player> <size> <source>
<arrow> <target>` with player `P1`/`P2`, size initial letter, source `_` or
`row,col`, arrow `>`); the player abbreviation token. -/
def Player.abbrevChars : Player → List Char
  | .one => ['P', '1']
  | .two => ['P', '2']

/-- Modelled from the spec: the size letter token of the §6 move text format. -/
def Size.abbrevChars : Size → List Char
  | .small => ['S']
  | .medium => ['M']
  | .large => ['L']

/-- Modelled from the spec: the `row,col` cell token of the §6 move text format. -/
def Cell.canonicalText (c : Cell) : List Char :=
  [Char.ofNat (48 + c.row), ',', Char.ofNat (48 + c.col)]

/-- Modelled from the spec: a move rendered in the five-token §6 input format
that `FromStr` consumes. -/
def Move.canonicalText (m : Move) : List Char :=
  m.player.abbrevChars ++ [' '] ++ m.size.abbrevChars ++ [' ']
    ++ (match m.source with
        | some src => src.canonicalText
        | none => ['_'])
    ++ [' ', '>', ' '] ++ m.target.canonicalText

/-- Spec vocabulary: player `p` controls all three cells of line `l`
(each cell on the line has controlling player `p`). -/
def controlsLine (b : Board) (p : Player) (l : Line) : Prop :=
  ∀ c : Cell, Line.matches l c = true → (b.cells c).controlled_by = some p

instance (b : Board) (p : Player) (l : Line) : Decidable (controlsLine b p l) := by
  unfold controlsLine
  infer_instance

/-- The first line, in the iteration order of `Line::all`, that player `p`
has completed on board `b`. -/
def firstCompleteLine (b : Board) (p : Player) : Option Line :=
  Line.all.find? (fun l => decide (controlsLine b p l))

/-- Modelled from the spec (§4.2 victory detection): the opponent of the mover
wins on their first complete line if they have any; otherwise the mover wins on
the mover's first complete line; otherwise no victory. -/
def specVictory (b : Board) (mover : Player) : Option Victory :=
  match firstCompleteLine b mover.not with
  | some l => some { player := mover.not, line := l }
  | none => (firstCompleteLine b mover).map (fun l => { player := mover, line := l })

/-- The source/inventory validation step of `Game::submit` succeeds for this move. -/
def sourcePasses (g : Game) (m : Move) : Prop :=
  match m.source with
  | some src =>
    (g.board.cells src).get m.size = some m.player ∧
      ((g.board.cells src).size.map
        (fun srcSize => decide (m.size.val < srcSize.val))).getD false = false
  | none => inPlayCount g.board m.player m.size < STARTING_INVENTORY

/-- Game states reachable from `Game::default()` by successful `submit` calls. -/
inductive Reachable : Game → Prop where
  | init : Reachable Game.init
  | step {g g' : Game} {m : Move} {v : Option Victory} :
      Reachable g → submit g m = (g', Except.ok v) → Reachable g'

instance {ε α : Type} [DecidableEq ε] [DecidableEq α] : DecidableEq (Except ε α) :=
  fun a b =>
  match a, b with
  | Except.ok x, Except.ok y =>
    if h : x = y then Decidable.isTrue (by rw [h]) else
      Decidable.isFalse (by
        intro hc
        cases hc
        exact h rfl)
  | Except.error x, Except.error y =>
    if h : x = y then Decidable.isTrue (by rw [h]) else
      Decidable.isFalse (by
        intro hc
        cases hc
        exact h rfl)
  | Except.ok _, Except.error _ => Decidable.isFalse (by intro hc; cases hc)
  | Except.error _, Except.ok _ => Decidable.isFalse (by intro hc; cases hc)

def cW0 : Cell := ⟨⟨0, by omega⟩⟩

def cW1 : Cell := ⟨⟨1, by omega⟩⟩

def cW2 : Cell := ⟨⟨2, by omega⟩⟩

def cW3 : Cell := ⟨⟨3, by omega⟩⟩

/-- Witness board: Player One smalls on cells (0,0), (0,1) and (1,0). -/
def bW1 : Board :=
  ((Board.init.write cW0 Size.small (some Player.one)).write
    cW1 Size.small (some Player.one)).write
    cW3 Size.small (some Player.one)

def gW1 : Game := ⟨bW1, [], none⟩

def mW1 : Move := ⟨Player.one, Size.small, some cW3, cW2⟩

def gW1' : Game := (submit gW1 mW1).fst

def mW2 : Move := ⟨Player.two, Size.small, none, cW0⟩

def mW3 : Move := ⟨Player.two, Size.medium, none, cW1⟩

def gW5 : Game := ⟨Board.init, [], some ⟨Player.one, Line.Row 0⟩⟩

def mW5 : Move := ⟨Player.one, Size.small, none, cW0⟩

def mW6 : Move := ⟨Player.one, Size.small, some cW0, cW1⟩

/-- Witness board: Player Two large on cell (0,0). -/
def bW7 : Board := Board.init.write cW0 Size.large (some Player.two)

def gW7 : Game := ⟨bW7, [], none⟩

def mW7 : Move := ⟨Player.one, Size.large, none, cW0⟩

/-- Witness board: Player Two smalls on all of rows 0 and 1 (two complete lines). -/
def bW8 : Board :=
  (((((Board.init.write cW0 Size.small (some Player.two)).write
    cW1 Size.small (some Player.two)).write
    cW2 Size.small (some Player.two)).write
    cW3 Size.small (some Player.two)).write
    ⟨⟨4, by omega⟩⟩ Size.small (some Player.two)).write
    ⟨⟨5, by omega⟩⟩ Size.small (some Player.two)

/-- Witness board: Player One small on cell (0,0), uncovered. -/
def bW10 : Board := Board.init.write cW0 Size.small (some Player.one)

def gW10 : Game := ⟨bW10, [], none⟩

def mW10 : Move := ⟨Player.one, Size.small, some cW0, cW0⟩

def mW9 : Move := ⟨Player.one, Size.small, none, cW0⟩

theorem sizeCheckLt_true_iff (o : Option Size) (n : Nat) :
    ((o.map (fun t => decide (n < t.val))).getD false = true) ↔
      ∃ t, o = some t ∧ n < t.val := by
  cases o <;> simp

theorem sizeCheckLe_true_iff (o : Option Size) (n : Nat) :
    ((o.map (fun t => decide (n ≤ t.val))).getD false = true) ↔
      ∃ t, o = some t ∧ n ≤ t.val := by
  cases o <;> simp

theorem submit_ok_spec {g : Game} {m : Move} {g' : Game} {v : Option Victory}
    (h : submit g m = (g', Except.ok v)) :
    g.victory = none ∧ g.nextPlayer = m.player ∧ sourcePasses g m ∧
      ((g.board.cells m.target).size.map
        (fun destSize => decide (m.size.val ≤ destSize.val))).getD false = false ∧
      g' = ⟨applyMove g.board m, g.moves ++ [m],
            lookForVictory (applyMove g.board m) m.player⟩ ∧
      v = lookForVictory (applyMove g.board m) m.player := by
  unfold submit at h
  split at h
  · exact absurd h (by simp)
  next hv =>
  have hvn : g.victory = none := by
    cases hvic : g.victory
    · rfl
    · rw [hvic] at hv
      exact absurd rfl hv
  split at h
  · exact absurd h (by simp)
  next hturn =>
  have hturn' : g.nextPlayer = m.player := not_not.mp hturn
  split at h
  next src hsrc =>
    split at h
    · exact absurd h (by simp)
    next hgot =>
    split at h
    · exact absurd h (by simp)
    next hblock =>
    have hgot' : (g.board.cells src).get m.size = some m.player := not_not.mp hgot
    have hblock' : ((g.board.cells src).size.map
        (fun srcSize => decide (m.size.val < srcSize.val))).getD false = false :=
      Bool.not_eq_true _ |>.mp hblock
    unfold finishMove at h
    split at h
    · exact absurd h (by simp)
    next hdest =>
    have hdest' : ((g.board.cells m.target).size.map
        (fun destSize => decide (m.size.val ≤ destSize.val))).getD false = false :=
      Bool.not_eq_true _ |>.mp hdest
    injection h with h1 h2
    injection h2 with h2
    refine ⟨hvn, hturn', ?_, hdest', h1.symm, h2.symm⟩
    unfold sourcePasses
    rw [hsrc]
    exact ⟨hgot', hblock'⟩
  next hsrc =>
    split at h
    · exact absurd h (by simp)
    next hinv =>
    unfold finishMove at h
    split at h
    · exact absurd h (by simp)
    next hdest =>
    have hdest' : ((g.board.cells m.target).size.map
        (fun destSize => decide (m.size.val ≤ destSize.val))).getD false = false :=
      Bool.not_eq_true _ |>.mp hdest
    injection h with h1 h2
    injection h2 with h2
    refine ⟨hvn, hturn', ?_, hdest', h1.symm, h2.symm⟩
    unfold sourcePasses
    rw [hsrc]
    exact Nat.lt_of_not_le hinv

theorem submit_error_eq {g : Game} {m : Move} {g' : Game} {e : SubmitMoveError}
    (h : submit g m = (g', Except.error e)) : g' = g := by
  unfold submit finishMove at h
  split at h
  · injection h with h1 h2
    exact h1.symm
  split at h
  · injection h with h1 h2
    exact h1.symm
  split at h
  next src hsrc =>
    split at h
    · injection h with h1 h2
      exact h1.symm
    split at h
    · injection h with h1 h2
      exact h1.symm
    split at h
    · injection h with h1 h2
      exact h1.symm
    · exact absurd h (by simp)
  next hsrc =>
    split at h
    · injection h with h1 h2
      exact h1.symm
    split at h
    · injection h with h1 h2
      exact h1.symm
    · exact absurd h (by simp)

theorem submit_gameOver {g : Game} (m : Move) {v : Victory}
    (h : g.victory = some v) :
    submit g m = (g, Except.error SubmitMoveError.GameOver) := by
  unfold submit
  rw [h]
  rfl

theorem submit_outOfTurn_iff {g : Game} {m : Move} (hv : g.victory = none) :
    (submit g m).snd = Except.error SubmitMoveError.OutOfTurn ↔
      m.player ≠ g.nextPlayer := by
  constructor
  · intro h
    rcases hs : submit g m with ⟨g', r⟩
    rw [hs] at h
    dsimp at h
    subst h
    unfold submit at hs
    split at hs
    · simp at hs
    split at hs
    next hturn => exact Ne.symm hturn
    next hturn =>
      split at hs
      next src hsrc =>
        split at hs
        · simp at hs
        split at hs
        · simp at hs
        · unfold finishMove at hs
          split at hs
          · simp at hs
          · simp at hs
      next hsrc =>
        split at hs
        · simp at hs
        · unfold finishMove at hs
          split at hs
          · simp at hs
          · simp at hs
  · intro hne
    unfold submit
    split
    next hv' =>
      rw [hv] at hv'
      exact absurd hv' (by simp)
    split
    · rfl
    next hturn => exact absurd (not_not.mp hturn).symm hne

theorem submit_none_src {g : Game} {m : Move} (hv : g.victory = none)
    (hturn : m.player = g.nextPlayer) (hsrc : m.source = none) :
    submit g m =
      if STARTING_INVENTORY ≤ inPlayCount g.board m.player m.size then
        (g, Except.error SubmitMoveError.PieceNotInInventory)
      else finishMove g m := by
  unfold submit
  rw [hv, hsrc, if_neg (by simp), if_neg (not_ne_iff.mpr hturn.symm)]

theorem submit_some_src {g : Game} {m : Move} {src : Cell} (hv : g.victory = none)
    (hturn : m.player = g.nextPlayer) (hsrc : m.source = some src) :
    submit g m =
      if (g.board.cells src).get m.size ≠ some m.player then
        (g, Except.error SubmitMoveError.PieceNotAtSource)
      else if ((g.board.cells src).size.map
          (fun srcSize => decide (m.size.val < srcSize.val))).getD false then
        (g, Except.error SubmitMoveError.PieceBlockedAtSource)
      else finishMove g m := by
  unfold submit
  rw [hv, hsrc, if_neg (by simp), if_neg (not_ne_iff.mpr hturn.symm)]

theorem submit_notInInventory_iff {g : Game} {m : Move} (hv : g.victory = none)
    (hturn : m.player = g.nextPlayer) (hsrc : m.source = none) :
    (submit g m).snd = Except.error SubmitMoveError.PieceNotInInventory ↔
      STARTING_INVENTORY ≤ inPlayCount g.board m.player m.size := by
  rw [submit_none_src hv hturn hsrc]
  by_cases hinv : STARTING_INVENTORY ≤ inPlayCount g.board m.player m.size
  · rw [if_pos hinv]
    exact iff_of_true rfl hinv
  · rw [if_neg hinv]
    refine iff_of_false ?_ hinv
    unfold finishMove
    split <;> simp

theorem submit_notAtSource_iff {g : Game} {m : Move} {src : Cell} (hv : g.victory = none)
    (hturn : m.player = g.nextPlayer) (hsrc : m.source = some src) :
    (submit g m).snd = Except.error SubmitMoveError.PieceNotAtSource ↔
      (g.board.cells src).get m.size ≠ some m.player := by
  rw [submit_some_src hv hturn hsrc]
  by_cases hgot : (g.board.cells src).get m.size ≠ some m.player
  · rw [if_pos hgot]
    exact iff_of_true rfl hgot
  · rw [if_neg hgot]
    refine iff_of_false ?_ hgot
    split
    · simp
    · unfold finishMove
      split <;> simp

theorem submit_blockedAtSource_iff {g : Game} {m : Move} {src : Cell} (hv : g.victory = none)
    (hturn : m.player = g.nextPlayer) (hsrc : m.source = some src) :
    (submit g m).snd = Except.error SubmitMoveError.PieceBlockedAtSource ↔
      ((g.board.cells src).get m.size = some m.player ∧
        ∃ ts, (g.board.cells src).size = some ts ∧ m.size.val < ts.val) := by
  rw [submit_some_src hv hturn hsrc]
  by_cases hgot : (g.board.cells src).get m.size ≠ some m.player
  · rw [if_pos hgot]
    exact iff_of_false (by simp) (fun hc => hgot hc.1)
  · rw [if_neg hgot]
    by_cases hblock : ((g.board.cells src).size.map
        (fun srcSize => decide (m.size.val < srcSize.val))).getD false = true
    · rw [if_pos hblock]
      exact iff_of_true rfl ⟨not_not.mp hgot, (sizeCheckLt_true_iff _ _).mp hblock⟩
    · rw [if_neg hblock]
      refine iff_of_false ?_ (fun hc => hblock ((sizeCheckLt_true_iff _ _).mpr hc.2))
      unfold finishMove
      split <;> simp

theorem submit_targetBlocked_iff {g : Game} {m : Move} (hv : g.victory = none)
    (hturn : m.player = g.nextPlayer) (hpass : sourcePasses g m) :
    (submit g m).snd = Except.error SubmitMoveError.TargetBlocked ↔
      ∃ ds, (g.board.cells m.target).size = some ds ∧ m.size.val ≤ ds.val := by
  unfold sourcePasses at hpass
  have hfin : (submit g m).snd = (finishMove g m).snd := by
    rcases hms : m.source with _ | src
    · rw [submit_none_src hv hturn hms,
        if_neg (Nat.not_le.mpr (by rw [hms] at hpass; exact hpass))]
    · rw [hms] at hpass
      rw [submit_some_src hv hturn hms, if_neg (not_not.mpr hpass.1), if_neg (by rw [hpass.2]; simp)]
  rw [hfin]
  unfold finishMove
  by_cases hdest : ((g.board.cells m.target).size.map
      (fun destSize => decide (m.size.val ≤ destSize.val))).getD false = true
  · rw [if_pos hdest]
    exact iff_of_true rfl ((sizeCheckLe_true_iff _ _).mp hdest)
  · rw [if_neg hdest]
    exact iff_of_false (by simp) (fun hc => hdest ((sizeCheckLe_true_iff _ _).mpr hc))

theorem submit_ok_of_passes {g : Game} {m : Move} (hv : g.victory = none)
    (hturn : m.player = g.nextPlayer) (hpass : sourcePasses g m)
    (hdest : ((g.board.cells m.target).size.map
      (fun destSize => decide (m.size.val ≤ destSize.val))).getD false = false) :
    submit g m =
      (⟨applyMove g.board m, g.moves ++ [m],
        lookForVictory (applyMove g.board m) m.player⟩,
       Except.ok (lookForVictory (applyMove g.board m) m.player)) := by
  unfold sourcePasses at hpass
  have hfin : submit g m = finishMove g m := by
    rcases hms : m.source with _ | src
    · rw [submit_none_src hv hturn hms,
        if_neg (Nat.not_le.mpr (by rw [hms] at hpass; exact hpass))]
    · rw [hms] at hpass
      rw [submit_some_src hv hturn hms, if_neg (not_not.mpr hpass.1), if_neg (by rw [hpass.2]; simp)]
  rw [hfin]
  unfold finishMove
  rw [if_neg (by rw [hdest]; simp)]

theorem foldl_winStep_none (ys : List (Option Player)) :
    ys.foldl (fun acc curr => if acc = curr then acc else none) none = none := by
  induction ys with
  | nil => rfl
  | cons y ys ih =>
    simp only [List.foldl_cons]
    split <;> simpa using ih

theorem foldl_winStep_eq_some_iff (ys : List (Option Player)) (a : Option Player) (p : Player) :
    ys.foldl (fun acc curr => if acc = curr then acc else none) a = some p ↔
      (a = some p ∧ ∀ y ∈ ys, y = some p) := by
  induction ys generalizing a with
  | nil => simp
  | cons y ys ih =>
    simp only [List.foldl_cons]
    split
    next heq =>
      subst heq
      rw [ih]
      constructor
      · rintro ⟨h1, h2⟩
        exact ⟨h1, by
          intro z hz
          rcases List.mem_cons.mp hz with rfl | hz'
          · exact h1
          · exact h2 z hz'⟩
      · rintro ⟨h1, h2⟩
        exact ⟨h1, fun z hz => h2 z (List.mem_cons_of_mem _ hz)⟩
    next hne =>
      rw [foldl_winStep_none]
      constructor
      · intro hc
        exact absurd hc (by simp)
      · rintro ⟨h1, h2⟩
        exact absurd (h1.trans (h2 y (List.mem_cons_self _ _)).symm) hne

theorem filter_comm_map {α β : Type} (f : α → β) (q : β → Bool) (l : List α) :
    (l.map f).filter q = (l.filter (fun a => q (f a))).map f := by
  induction l with
  | nil => rfl
  | cons x xs ih =>
    simp only [List.map_cons, List.filter_cons]
    split
    next hq => rw [List.map_cons, ih]
    next hq => exact ih

theorem mem_line_iff {b : Board} {l : Line} {x : Cell × CellState} :
    x ∈ b.line l ↔ (x.snd = b.cells x.fst ∧ l.matches x.fst = true) := by
  unfold Board.line Board.cellsList
  rw [List.mem_filter, List.mem_map]
  constructor
  · rintro ⟨⟨i, _, rfl⟩, hq⟩
    exact ⟨rfl, hq⟩
  · rintro ⟨hsnd, hq⟩
    refine ⟨⟨x.fst.idx, List.mem_finRange _, ?_⟩, hq⟩
    have : (⟨x.fst.idx⟩ : Cell) = x.fst := rfl
    rw [this, ← hsnd]

theorem line_length (b : Board) (l : Line) :
    (b.line l).length = ((List.finRange 9).filter (fun i => l.matches ⟨i⟩)).length := by
  unfold Board.line Board.cellsList
  rw [filter_comm_map]
  exact List.length_map _ _

theorem line_ne_nil {b : Board} {l : Line} (hl : l ∈ Line.all) : b.line l ≠ [] := by
  have hlen : (b.line l).length = ((List.finRange 9).filter (fun i => l.matches ⟨i⟩)).length :=
    line_length b l
  intro hc
  rw [hc] at hlen
  fin_cases hl <;> exact absurd hlen (by decide)

theorem lineWinner_eq_some_iff {b : Board} {l : Line} (hne : b.line l ≠ []) (p : Player) :
    lineWinner b l = some p ↔ ∀ x ∈ b.line l, x.snd.controlled_by = some p := by
  unfold lineWinner reduceWinner
  rcases hl : b.line l with _ | ⟨x, xs⟩
  · exact absurd hl hne
  · simp only [List.map_cons, Option.join, Option.some_bind, id_eq]
    rw [foldl_winStep_eq_some_iff]
    constructor
    · rintro ⟨h1, h2⟩
      intro z hz
      rcases List.mem_cons.mp hz with rfl | hz'
      · exact h1
      · exact h2 _ (List.mem_map_of_mem _ hz')
    · intro hall
      refine ⟨hall x (List.mem_cons_self _ _), ?_⟩
      intro y hy
      rcases List.mem_map.mp hy with ⟨z, hz, rfl⟩
      exact hall z (List.mem_cons_of_mem _ hz)

theorem controlsLine_iff {b : Board} {p : Player} {l : Line} :
    controlsLine b p l ↔ ∀ x ∈ b.line l, x.snd.controlled_by = some p := by
  constructor
  · intro hc x hx
    rcases mem_line_iff.mp hx with ⟨hsnd, hm⟩
    rw [hsnd]
    exact hc x.fst hm
  · intro hall c hm
    exact hall (c, b.cells c) (mem_line_iff.mpr ⟨rfl, hm⟩)

theorem lineWinner_iff_controlsLine {b : Board} {l : Line} (hl : l ∈ Line.all) (p : Player) :
    lineWinner b l = some p ↔ controlsLine b p l := by
  rw [lineWinner_eq_some_iff (line_ne_nil hl), controlsLine_iff]

theorem Player.ne_not : ∀ p : Player, p ≠ p.not := by decide

theorem Player.eq_of_ne_not : ∀ w p : Player, w ≠ p.not → w = p := by decide

theorem find?_congr_pred {α : Type} {p q : α → Bool} (l : List α)
    (h : ∀ x ∈ l, p x = q x) : l.find? p = l.find? q := by
  induction l with
  | nil => rfl
  | cons x xs ih =>
    have hx := h x (List.mem_cons_self _ _)
    by_cases hp : p x = true
    · rw [List.find?_cons_of_pos _ hp, List.find?_cons_of_pos _ (hx ▸ hp)]
    · rw [List.find?_cons_of_neg _ hp, List.find?_cons_of_neg _ (hx ▸ hp)]
      exact ih (fun y hy => h y (List.mem_cons_of_mem _ hy))

theorem lookForVictoryAux_eq (b : Board) (mover : Player) (acc : Option Line)
    (lines : List Line) :
    lookForVictoryAux b mover acc lines =
      match lines.find? (fun l => decide (lineWinner b l = some mover.not)) with
      | some l => some ⟨mover.not, l⟩
      | none =>
        match acc with
        | some l => some ⟨mover, l⟩
        | none => (lines.find? (fun l => decide (lineWinner b l = some mover))).map
            (fun l => ⟨mover, l⟩) := by
  induction lines generalizing acc with
  | nil => cases acc <;> rfl
  | cons l rest ih =>
    cases hw : lineWinner b l with
    | none =>
      simp only [lookForVictoryAux, hw]
      rw [List.find?_cons_of_neg _ (by rw [hw]; simp),
        List.find?_cons_of_neg _ (by rw [hw]; simp)]
      exact ih acc
    | some w =>
      by_cases hwo : w = mover.not
      · simp only [lookForVictoryAux, hw, if_pos hwo]
        rw [List.find?_cons_of_pos _ (by rw [hw, hwo]; simp)]
      · have hwm : w = mover := Player.eq_of_ne_not w mover hwo
        simp only [lookForVictoryAux, hw, if_neg hwo]
        rw [List.find?_cons_of_neg _ (by
            rw [hw]
            simp only [decide_eq_true_eq, Option.some.injEq]
            exact hwo),
          List.find?_cons_of_pos _ (by rw [hw, hwm]; simp)]
        cases acc with
        | none =>
          have hred : (if (none : Option Line).isNone = true then some l else none) = some l :=
            rfl
          rw [hred, ih (some l)]
          cases hrest : rest.find? (fun l => decide (lineWinner b l = some mover.not)) <;>
            rfl
        | some a =>
          have hred : (if (some a).isNone = true then some l else some a) = some a := rfl
          rw [hred, ih (some a)]

theorem lookForVictory_eq_specVictory (b : Board) (mover : Player) :
    lookForVictory b mover = specVictory b mover := by
  unfold lookForVictory specVictory firstCompleteLine
  rw [lookForVictoryAux_eq]
  have hopp : Line.all.find? (fun l => decide (lineWinner b l = some mover.not))
      = Line.all.find? (fun l => decide (controlsLine b mover.not l)) :=
    find?_congr_pred _ (fun l hl => by
      rw [decide_eq_decide]
      exact lineWinner_iff_controlsLine hl _)
  have hmov : Line.all.find? (fun l => decide (lineWinner b l = some mover))
      = Line.all.find? (fun l => decide (controlsLine b mover l)) :=
    find?_congr_pred _ (fun l hl => by
      rw [decide_eq_decide]
      exact lineWinner_iff_controlsLine hl _)
  rw [hopp, hmov]

theorem get_set_same (cs : CellState) (s : Size) (v : Option Player) :
    (cs.set s v).get s = v := by
  cases s <;> rfl

theorem get_set_other (cs : CellState) {s s' : Size} (h : s' ≠ s) (v : Option Player) :
    (cs.set s v).get s' = cs.get s' := by
  cases s <;> cases s' <;> first | rfl | exact absurd rfl h

theorem cells_write_same (b : Board) (c : Cell) (s : Size) (v : Option Player) :
    (b.write c s v).cells c = (b.cells c).set s v := by
  unfold Board.write
  simp

theorem cells_write_other (b : Board) {c c' : Cell} (h : c' ≠ c) (s : Size)
    (v : Option Player) : (b.write c s v).cells c' = b.cells c' := by
  unfold Board.write
  simp [h]

theorem write_get_other_size (b : Board) (c0 c : Cell) (s0 : Size) (v : Option Player)
    {s : Size} (h : s ≠ s0) : ((b.write c0 s0 v).cells c).get s = (b.cells c).get s := by
  by_cases hc : c = c0
  · subst hc
    rw [cells_write_same, get_set_other _ h]
  · rw [cells_write_other _ hc]

theorem applyMove_get_other_size (b : Board) (m : Move) (c : Cell) {s : Size}
    (h : s ≠ m.size) : ((applyMove b m).cells c).get s = (b.cells c).get s := by
  unfold applyMove
  cases hms : m.source with
  | none => exact write_get_other_size _ _ _ _ _ h
  | some src => rw [write_get_other_size _ _ _ _ _ h, write_get_other_size _ _ _ _ _ h]

theorem applyMove_get_target (b : Board) (m : Move) :
    ((applyMove b m).cells m.target).get m.size = some m.player := by
  unfold applyMove
  cases hms : m.source <;> rw [cells_write_same, get_set_same]

theorem applyMove_get_size_other_cell (b : Board) (m : Move) {c : Cell}
    (hc : c ≠ m.target) :
    ((applyMove b m).cells c).get m.size =
      if m.source = some c then none else (b.cells c).get m.size := by
  unfold applyMove
  cases hms : m.source with
  | none =>
    rw [cells_write_other _ hc, if_neg (by simp)]
  | some src =>
    rw [cells_write_other _ hc]
    by_cases hsc : src = c
    · subst hsc
      rw [cells_write_same, get_set_same, if_pos rfl]
    · rw [cells_write_other _ (fun hx => hsc hx.symm),
        if_neg (by
          intro hx
          injection hx with hx'
          exact hsc hx')]

theorem get_some_size_ge : ∀ (cs : CellState) (s : Size) (p : Player),
    cs.get s = some p → ∃ t, cs.size = some t ∧ s.val ≤ t.val := by decide

theorem slot_none_of_not_destBlocked : ∀ (cs : CellState) (s : Size),
    ((cs.size.map (fun destSize => decide (s.val ≤ destSize.val))).getD false = false) →
      cs.get s = none := by decide

theorem uncovered_blocks : ∀ (cs : CellState) (s : Size) (p : Player),
    cs.get s = some p →
    ((cs.size.map (fun srcSize => decide (s.val < srcSize.val))).getD false = false) →
    ((cs.size.map (fun destSize => decide (s.val ≤ destSize.val))).getD false = true) := by
  decide

theorem length_filter_eq_sum {α : Type} (l : List α) (q : α → Bool) :
    (l.filter q).length = (l.map (fun a => if q a then 1 else 0)).sum := by
  induction l with
  | nil => rfl
  | cons x xs ih =>
    rw [List.filter_cons, List.map_cons, List.sum_cons]
    split
    next =>
      rw [List.length_cons, ih]
      omega
    next =>
      rw [ih]
      omega

theorem inPlayCount_eq_sum (b : Board) (p : Player) (s : Size) :
    inPlayCount b p s
      = ∑ i : Fin 9, (if (b.cells ⟨i⟩).get s = some p then 1 else 0) := by
  unfold inPlayCount Board.cellsList
  rw [filter_comm_map, List.length_map, length_filter_eq_sum, Fin.sum_univ_def]
  simp only [decide_eq_true_eq]

theorem sum_split_one (g : Fin 9 → ℕ) (i : Fin 9) :
    ∑ j, g j = g i + ∑ j in Finset.univ.erase i, g j :=
  (Finset.add_sum_erase _ g (Finset.mem_univ i)).symm

theorem sum_congr_except {gq h : Fin 9 → ℕ} (i : Fin 9)
    (hoff : ∀ j, j ≠ i → gq j = h j) :
    ∑ j in Finset.univ.erase i, gq j = ∑ j in Finset.univ.erase i, h j :=
  Finset.sum_congr rfl (fun j hj => hoff j (Finset.mem_erase.mp hj).1)

theorem sum_split_two (g : Fin 9 → ℕ) {i1 i2 : Fin 9} (hne : i1 ≠ i2) :
    ∑ j, g j = g i1 + g i2 + ∑ j in (Finset.univ.erase i1).erase i2, g j := by
  rw [sum_split_one g i1]
  have h2 : i2 ∈ Finset.univ.erase i1 :=
    Finset.mem_erase.mpr ⟨fun hx => hne hx.symm, Finset.mem_univ _⟩
  rw [← Finset.add_sum_erase _ g h2, ← Nat.add_assoc]

theorem sum_congr_except_two {gq h : Fin 9 → ℕ} (i1 i2 : Fin 9)
    (hoff : ∀ j, j ≠ i1 → j ≠ i2 → gq j = h j) :
    ∑ j in (Finset.univ.erase i1).erase i2, gq j
      = ∑ j in (Finset.univ.erase i1).erase i2, h j :=
  Finset.sum_congr rfl (fun j hj => by
    rcases Finset.mem_erase.mp hj with ⟨hj2, hj'⟩
    rcases Finset.mem_erase.mp hj' with ⟨hj1, _⟩
    exact hoff j hj1 hj2)

theorem cell_mk_idx (c : Cell) : (⟨c.idx⟩ : Cell) = c := rfl

theorem count_applyMove_other_size (b : Board) (m : Move) {s : Size} (hs : s ≠ m.size)
    (p : Player) : inPlayCount (applyMove b m) p s = inPlayCount b p s := by
  rw [inPlayCount_eq_sum, inPlayCount_eq_sum]
  exact Finset.sum_congr rfl (fun i _ => by rw [applyMove_get_other_size b m ⟨i⟩ hs])

theorem count_applyMove_other_player (b : Board) (m : Move)
    (hT : (b.cells m.target).get m.size = none)
    (hS : ∀ src, m.source = some src → (b.cells src).get m.size = some m.player)
    {p : Player} (hp : p ≠ m.player) :
    inPlayCount (applyMove b m) p m.size = inPlayCount b p m.size := by
  rw [inPlayCount_eq_sum, inPlayCount_eq_sum]
  refine Finset.sum_congr rfl (fun i _ => ?_)
  by_cases hit : (⟨i⟩ : Cell) = m.target
  · rw [hit, applyMove_get_target, hT]
    simp [Ne.symm hp]
  · rw [applyMove_get_size_other_cell b m hit]
    split
    next hsome =>
      rw [hS _ hsome]
      simp [Ne.symm hp]
    next hnone => rfl

theorem applyMove_get_size_untouched (b : Board) (m : Move) {c : Cell}
    (hc : c ≠ m.target) (hs : m.source ≠ some c) :
    ((applyMove b m).cells c).get m.size = (b.cells c).get m.size := by
  rw [applyMove_get_size_other_cell b m hc, if_neg hs]

theorem applyMove_get_size_at_src (b : Board) (m : Move) {src : Cell}
    (hsrc : m.source = some src) (hst : src ≠ m.target) :
    ((applyMove b m).cells src).get m.size = none := by
  rw [applyMove_get_size_other_cell b m hst, if_pos hsrc]

theorem count_applyMove_from_inventory (b : Board) (m : Move)
    (hT : (b.cells m.target).get m.size = none) (hsrc : m.source = none) :
    inPlayCount (applyMove b m) m.player m.size = inPlayCount b m.player m.size + 1 := by
  rw [inPlayCount_eq_sum, inPlayCount_eq_sum]
  rw [sum_split_one _ m.target.idx, sum_split_one
    (fun i => if (b.cells ⟨i⟩).get m.size = some m.player then 1 else 0) m.target.idx]
  have hcongr : ∑ j in Finset.univ.erase m.target.idx,
      (if ((applyMove b m).cells ⟨j⟩).get m.size = some m.player then 1 else 0)
      = ∑ j in Finset.univ.erase m.target.idx,
      (if (b.cells ⟨j⟩).get m.size = some m.player then 1 else 0) := by
    refine sum_congr_except _ (fun j hj => ?_)
    have hcell : (⟨j⟩ : Cell) ≠ m.target := fun hx => hj (congrArg Cell.idx hx)
    rw [applyMove_get_size_untouched b m hcell (by
      rw [hsrc]
      intro hx
      exact Option.noConfusion hx)]
  rw [hcongr]
  simp only [cell_mk_idx, applyMove_get_target, hT]
  simp
  omega

theorem count_applyMove_from_board (b : Board) (m : Move) (src : Cell)
    (hT : (b.cells m.target).get m.size = none) (hsrc : m.source = some src)
    (hS : (b.cells src).get m.size = some m.player) :
    inPlayCount (applyMove b m) m.player m.size = inPlayCount b m.player m.size := by
  have hst : src ≠ m.target := by
    intro hx
    rw [hx, hT] at hS
    exact absurd hS (by simp)
  have hidx : m.target.idx ≠ src.idx := by
    intro hx
    exact hst (congrArg (fun i => (⟨i⟩ : Cell)) hx).symm
  have hsn : ((applyMove b m).cells src).get m.size = none :=
    applyMove_get_size_at_src b m hsrc hst
  rw [inPlayCount_eq_sum, inPlayCount_eq_sum]
  rw [sum_split_two _ hidx, sum_split_two
    (fun i => if (b.cells ⟨i⟩).get m.size = some m.player then 1 else 0) hidx]
  have hcongr : ∑ j in (Finset.univ.erase m.target.idx).erase src.idx,
      (if ((applyMove b m).cells ⟨j⟩).get m.size = some m.player then 1 else 0)
      = ∑ j in (Finset.univ.erase m.target.idx).erase src.idx,
      (if (b.cells ⟨j⟩).get m.size = some m.player then 1 else 0) := by
    refine sum_congr_except_two _ _ (fun j hj1 hj2 => ?_)
    have hcell : (⟨j⟩ : Cell) ≠ m.target := fun hx => hj1 (congrArg Cell.idx hx)
    have hcell2 : m.source ≠ some ⟨j⟩ := by
      rw [hsrc]
      intro hx
      injection hx with hx'
      exact hj2 (congrArg Cell.idx hx'.symm)
    rw [applyMove_get_size_untouched b m hcell hcell2]
  rw [hcongr]
  simp only [cell_mk_idx, applyMove_get_target, hT, hS, hsn]
  simp

theorem sourcePasses_some {g : Game} {m : Move} {src : Cell} (hpass : sourcePasses g m)
    (hms : m.source = some src) :
    (g.board.cells src).get m.size = some m.player ∧
      ((g.board.cells src).size.map
        (fun srcSize => decide (m.size.val < srcSize.val))).getD false = false := by
  unfold sourcePasses at hpass
  rw [hms] at hpass
  exact hpass

theorem sourcePasses_none {g : Game} {m : Move} (hpass : sourcePasses g m)
    (hms : m.source = none) :
    inPlayCount g.board m.player m.size < STARTING_INVENTORY := by
  unfold sourcePasses at hpass
  rw [hms] at hpass
  exact hpass

theorem reachable_inventory {g : Game} (hg : Reachable g) :
    ∀ (p : Player) (s : Size), inPlayCount g.board p s ≤ STARTING_INVENTORY := by
  induction hg with
  | init => decide
  | step hprev hsub ih =>
    rename_i gOld gNew m v
    intro p s
    rcases submit_ok_spec hsub with ⟨hv, hturn, hpass, hdest, hg', hvv⟩
    rw [hg']
    have hT : (gOld.board.cells m.target).get m.size = none :=
      slot_none_of_not_destBlocked _ _ hdest
    by_cases hs : s = m.size
    · subst hs
      by_cases hp : p = m.player
      · subst hp
        rcases hms : m.source with _ | src
        · rw [count_applyMove_from_inventory _ _ hT hms]
          have hlt := sourcePasses_none hpass hms
          omega
        · rw [count_applyMove_from_board _ _ src hT hms (sourcePasses_some hpass hms).1]
          exact ih _ _
      · rw [count_applyMove_other_player _ _ hT
          (fun src hms => (sourcePasses_some hpass hms).1) hp]
        exact ih _ _
    · rw [count_applyMove_other_size _ _ hs]
      exact ih _ _

theorem get_append_last {α : Type} (l : List α) (a : α)
    (h : l.length < (l ++ [a]).length) : (l ++ [a]).get ⟨l.length, h⟩ = a := by
  induction l with
  | nil => rfl
  | cons x xs ih => exact ih (by simp)

theorem get_append_left_my {α : Type} (l : List α) (a : α) {i : Nat} (hi : i < l.length)
    (h : i < (l ++ [a]).length) : (l ++ [a]).get ⟨i, h⟩ = l.get ⟨i, hi⟩ := by
  induction l generalizing i with
  | nil => exact absurd hi (by simp)
  | cons x xs ih =>
    cases i with
    | zero => rfl
    | succ n => exact ih (Nat.lt_of_succ_lt_succ hi) (by simpa using h)

theorem alt_append {l : List Move} {m : Move}
    (halt : ∀ i (hi : i < l.length),
      (l.get ⟨i, hi⟩).player = (if i % 2 = 0 then Player.one else Player.two))
    (hm : m.player = (if l.length % 2 = 0 then Player.one else Player.two)) :
    ∀ i (hi : i < (l ++ [m]).length),
      ((l ++ [m]).get ⟨i, hi⟩).player
        = (if i % 2 = 0 then Player.one else Player.two) := by
  intro i hi
  rcases Nat.lt_or_ge i l.length with hlt | hge
  · rw [get_append_left_my l m hlt hi]
    exact halt i hlt
  · have heq : i = l.length := by
      have hlen : (l ++ [m]).length = l.length + 1 := by simp
      omega
    subst heq
    rw [get_append_last]
    exact hm

theorem parity_not (n : Nat) :
    (if n % 2 = 0 then Player.one else Player.two).not
      = (if (n + 1) % 2 = 0 then Player.one else Player.two) := by
  rcases Nat.mod_two_eq_zero_or_one n with h | h
  · rw [if_pos h, if_neg (by omega)]
    rfl
  · rw [if_neg (by omega), if_pos (by omega)]
    rfl

theorem reachable_alt {g : Game} (hg : Reachable g) :
    (∀ i (hi : i < g.moves.length),
      (g.moves.get ⟨i, hi⟩).player = (if i % 2 = 0 then Player.one else Player.two))
    ∧ g.nextPlayer = (if g.moves.length % 2 = 0 then Player.one else Player.two) := by
  induction hg with
  | init =>
    refine ⟨?_, rfl⟩
    intro i hi
    exact absurd hi (by simp [Game.init])
  | step hprev hsub ih =>
    rename_i gOld gNew m v
    rcases submit_ok_spec hsub with ⟨hv, hturn, hpass, hdest, hg', hvv⟩
    rcases ih with ⟨ihAlt, ihNext⟩
    have hm : m.player = (if gOld.moves.length % 2 = 0 then Player.one else Player.two) := by
      rw [← hturn, ihNext]
    subst hg'
    refine ⟨alt_append ihAlt hm, ?_⟩
    show Game.nextPlayer _ = _
    unfold Game.nextPlayer
    simp only [List.getLast?_concat, Option.map_some', Option.getD_some]
    rw [hm, parity_not]
    simp

/-- C1: for every in-progress game and accepted move, victory detection runs on the
post-move board: the returned outcome equals the spec's victory rule applied to the
post-move board — the opponent wins on some completed line whenever the opponent
controls all three cells of at least one of the 8 lines (even if the mover also
completes a line), the mover wins only when the opponent completes no line and the
mover completes at least one, and otherwise the result is `Ok(None)`. -/
theorem victory_precedence_submit (g : Game) (m : Move) (g' : Game) (v : Option Victory)
    (h : submit g m = (g', Except.ok v)) :
    g'.board = applyMove g.board m ∧
    v = specVictory g'.board m.player ∧
    ((∃ l ∈ Line.all, controlsLine g'.board m.player.not l) →
      ∃ l ∈ Line.all, v = some ⟨m.player.not, l⟩ ∧ controlsLine g'.board m.player.not l) ∧
    ((∀ l ∈ Line.all, ¬ controlsLine g'.board m.player.not l) →
      (∃ l ∈ Line.all, controlsLine g'.board m.player l) →
      ∃ l ∈ Line.all, v = some ⟨m.player, l⟩ ∧ controlsLine g'.board m.player l) ∧
    ((∀ l ∈ Line.all, ¬ controlsLine g'.board m.player.not l) →
      (∀ l ∈ Line.all, ¬ controlsLine g'.board m.player l) → v = none) := by
  rcases submit_ok_spec h with ⟨hv, hturn, hpass, hdest, hg', hvv⟩
  have hb : g'.board = applyMove g.board m := by rw [hg']
  have hveq : v = specVictory g'.board m.player := by
    rw [hvv, hb, lookForVictory_eq_specVictory]
  refine ⟨hb, hveq, ?_, ?_, ?_⟩
  · rintro ⟨l, hl, hc⟩
    rcases ho : firstCompleteLine g'.board m.player.not with _ | l0
    · exfalso
      unfold firstCompleteLine at ho
      rw [List.find?_eq_none] at ho
      exact ho l hl (by simpa using hc)
    · have ho' : Line.all.find?
          (fun l => decide (controlsLine g'.board m.player.not l)) = some l0 := ho
      refine ⟨l0, List.mem_of_find?_eq_some ho', ?_, ?_⟩
      · rw [hveq]
        unfold specVictory
        rw [ho]
      · have hp := List.find?_some ho'
        exact of_decide_eq_true hp
  · intro hno hex
    have hono : firstCompleteLine g'.board m.player.not = none := by
      unfold firstCompleteLine
      rw [List.find?_eq_none]
      intro l hl
      simpa using hno l hl
    rcases hex with ⟨l, hl, hc⟩
    rcases hm : firstCompleteLine g'.board m.player with _ | l0
    · exfalso
      unfold firstCompleteLine at hm
      rw [List.find?_eq_none] at hm
      exact hm l hl (by simpa using hc)
    · have hm' : Line.all.find?
          (fun l => decide (controlsLine g'.board m.player l)) = some l0 := hm
      refine ⟨l0, List.mem_of_find?_eq_some hm', ?_, ?_⟩
      · rw [hveq]
        unfold specVictory
        rw [hono, hm]
        rfl
      · have hp := List.find?_some hm'
        exact of_decide_eq_true hp
  · intro hno1 hno2
    have hono : firstCompleteLine g'.board m.player.not = none := by
      unfold firstCompleteLine
      rw [List.find?_eq_none]
      intro l hl
      simpa using hno1 l hl
    have hono2 : firstCompleteLine g'.board m.player = none := by
      unfold firstCompleteLine
      rw [List.find?_eq_none]
      intro l hl
      simpa using hno2 l hl
    rw [hveq]
    unfold specVictory
    rw [hono, hono2]
    rfl

theorem victory_precedence_submit_witness :
    submit gW1 mW1 = (gW1', Except.ok (some ⟨Player.one, Line.Row 0⟩)) ∧
    some (⟨Player.one, Line.Row 0⟩ : Victory) = specVictory gW1'.board Player.one :=
  ⟨rfl,
   (victory_precedence_submit gW1 mW1 gW1' (some ⟨Player.one, Line.Row 0⟩) rfl).2.1⟩

/-- C2: a rejected `submit` (any `SubmitMoveError`) leaves board, move history and
victory outcome unchanged — no partial mutation on rejection. -/
theorem submit_rejection_atomic (g : Game) (m : Move) (e : SubmitMoveError)
    (h : (submit g m).snd = Except.error e) :
    (submit g m).fst.board = g.board ∧ (submit g m).fst.moves = g.moves ∧
      (submit g m).fst.victory = g.victory := by
  rcases hs : submit g m with ⟨g', r⟩
  rw [hs] at h
  dsimp at h
  subst h
  have hg' : g' = g := submit_error_eq hs
  rw [hg']
  exact ⟨rfl, rfl, rfl⟩

theorem submit_rejection_atomic_witness :
    (submit Game.init mW2).snd = Except.error SubmitMoveError.OutOfTurn ∧
    ((submit Game.init mW2).fst.board = Game.init.board ∧
      (submit Game.init mW2).fst.moves = Game.init.moves ∧
      (submit Game.init mW2).fst.victory = Game.init.victory) :=
  ⟨rfl, submit_rejection_atomic Game.init mW2 SubmitMoveError.OutOfTurn rfl⟩

/-- C3: `next_player` is derived from history (negation of the last accepted move's
player, `Player::One` on empty history); an in-progress `submit` returns `OutOfTurn`
exactly when the move's player differs from `next_player`; and in every reachable
game the accepted moves strictly alternate starting with Player One. -/
theorem turn_order_alternation (g : Game) (hg : Reachable g) :
    g.nextPlayer = ((g.moves.getLast?.map (fun mv => mv.player.not)).getD Player.one)
    ∧ (∀ m : Move, g.victory = none →
        ((submit g m).snd = Except.error SubmitMoveError.OutOfTurn ↔
          m.player ≠ g.nextPlayer))
    ∧ (∀ i (hi : i < g.moves.length),
        (g.moves.get ⟨i, hi⟩).player
          = (if i % 2 = 0 then Player.one else Player.two)) :=
  ⟨rfl, fun _ hv => submit_outOfTurn_iff hv, (reachable_alt hg).1⟩

theorem turn_order_alternation_witness :
    (submit Game.init mW3).snd = Except.error SubmitMoveError.OutOfTurn :=
  ((turn_order_alternation Game.init Reachable.init).2.1 mW3 rfl).mpr (by decide)

/-- C4: in every reachable game the number of cells whose `move.size` slot holds a
given player is at most the per-size inventory capacity 2; and an in-progress,
in-turn, from-inventory `submit` returns `PieceNotInInventory` exactly when that
count for the mover at the move's size is already at capacity. -/
theorem inventory_bound_and_rejection (g : Game) (hg : Reachable g) :
    (∀ (p : Player) (s : Size), inPlayCount g.board p s ≤ STARTING_INVENTORY)
    ∧ (∀ m : Move, g.victory = none → m.player = g.nextPlayer → m.source = none →
        ((submit g m).snd = Except.error SubmitMoveError.PieceNotInInventory ↔
          STARTING_INVENTORY ≤ inPlayCount g.board m.player m.size)) :=
  ⟨reachable_inventory hg, fun _ hv ht hs => submit_notInInventory_iff hv ht hs⟩

theorem inventory_bound_and_rejection_witness :
    inPlayCount Game.init.board Player.one Size.small ≤ STARTING_INVENTORY :=
  (inventory_bound_and_rejection Game.init Reachable.init).1 Player.one Size.small

/-- C5: once the victory outcome is set, every subsequent `submit` returns
`GameOver` and leaves the game (board, history, stored victory) unchanged. -/
theorem victory_terminal (g : Game) (m : Move) (v : Victory) (h : g.victory = some v) :
    submit g m = (g, Except.error SubmitMoveError.GameOver) :=
  submit_gameOver m h

theorem victory_terminal_witness :
    submit gW5 mW5 = (gW5, Except.error SubmitMoveError.GameOver) :=
  victory_terminal gW5 mW5 ⟨Player.one, Line.Row 0⟩ rfl

/-- C6: for an in-progress, in-turn move from a board source, `submit` returns
`PieceNotAtSource` exactly when the source's slot at the move's size does not hold
the mover, and `PieceBlockedAtSource` exactly when the piece is there but the
source's top size is strictly larger; both verdicts are independent of the
destination (the iffs hold for every board state). -/
theorem source_validation (g : Game) (m : Move) (src : Cell) (h1 : g.victory = none)
    (h2 : m.player = g.nextPlayer) (h3 : m.source = some src) :
    ((submit g m).snd = Except.error SubmitMoveError.PieceNotAtSource ↔
      (g.board.cells src).get m.size ≠ some m.player)
    ∧ ((submit g m).snd = Except.error SubmitMoveError.PieceBlockedAtSource ↔
      ((g.board.cells src).get m.size = some m.player ∧
        ∃ ts, (g.board.cells src).size = some ts ∧ m.size.val < ts.val)) :=
  ⟨submit_notAtSource_iff h1 h2 h3, submit_blockedAtSource_iff h1 h2 h3⟩

theorem source_validation_witness :
    (submit Game.init mW6).snd = Except.error SubmitMoveError.PieceNotAtSource :=
  (source_validation Game.init mW6 cW0 rfl rfl rfl).1.mpr (by decide)

/-- C7: once the game-over, turn and source/inventory checks pass, `submit` returns
`TargetBlocked` exactly when the target's top size is at least the move's size;
placing on an empty or strictly smaller target succeeds, and the target's other
size slots (the covered smaller contents) are unchanged, not removed. -/
theorem destination_validation (g : Game) (m : Move) (h1 : g.victory = none)
    (h2 : m.player = g.nextPlayer) (h3 : sourcePasses g m) :
    ((submit g m).snd = Except.error SubmitMoveError.TargetBlocked ↔
      ∃ ds, (g.board.cells m.target).size = some ds ∧ m.size.val ≤ ds.val)
    ∧ ((∀ ds, (g.board.cells m.target).size = some ds → ds.val < m.size.val) →
      ((submit g m).snd = Except.ok (lookForVictory (applyMove g.board m) m.player)
        ∧ ∀ s : Size, s ≠ m.size →
          ((submit g m).fst.board.cells m.target).get s
            = (g.board.cells m.target).get s)) := by
  refine ⟨submit_targetBlocked_iff h1 h2 h3, ?_⟩
  intro hsmall
  have hdest : ((g.board.cells m.target).size.map
      (fun destSize => decide (m.size.val ≤ destSize.val))).getD false = false := by
    rcases ho : (g.board.cells m.target).size with _ | ds
    · rfl
    · have hlt := hsmall ds ho
      simp only [Option.map_some', Option.getD_some, decide_eq_false_iff_not]
      omega
  rw [submit_ok_of_passes h1 h2 h3 hdest]
  exact ⟨rfl, fun s hs => applyMove_get_other_size _ _ _ hs⟩

theorem destination_validation_witness :
    (submit gW7 mW7).snd = Except.error SubmitMoveError.TargetBlocked :=
  (destination_validation gW7 mW7 rfl rfl
    (by decide : inPlayCount gW7.board Player.one Size.large < STARTING_INVENTORY)).1.mpr
    ⟨Size.large, rfl, by decide⟩

/-- C8: whenever `look_for_victory` reports a victory, the reported line is the
first line completed by the winner in the fixed iteration order of `Line::all` —
Row 0, Row 1, Row 2, Col 0, Col 1, Col 2, diagonal-up, diagonal-down — so the
tie-break among simultaneously completed lines is deterministic. -/
theorem winning_line_tiebreak (b : Board) (mover : Player) (v : Victory)
    (h : lookForVictory b mover = some v) :
    Line.all = [Line.Row 0, Line.Row 1, Line.Row 2, Line.Col 0, Line.Col 1,
      Line.Col 2, Line.DiagonalUp, Line.DiagonalDown]
    ∧ firstCompleteLine b v.player = some v.line := by
  refine ⟨rfl, ?_⟩
  rw [lookForVictory_eq_specVictory] at h
  unfold specVictory at h
  rcases ho : firstCompleteLine b mover.not with _ | l
  · simp only [ho] at h
    rcases hm : firstCompleteLine b mover with _ | l'
    · simp only [hm] at h
      exact absurd h (by simp)
    · simp only [hm, Option.map_some'] at h
      injection h with h'
      rw [← h']
      exact hm
  · simp only [ho] at h
    injection h with h'
    rw [← h']
    exact ho

theorem winning_line_tiebreak_witness :
    lookForVictory bW8 Player.one = some ⟨Player.two, Line.Row 0⟩ ∧
    firstCompleteLine bW8 Player.two = some (Line.Row 0) :=
  ⟨rfl, (winning_line_tiebreak bW8 Player.one ⟨Player.two, Line.Row 0⟩ rfl).2⟩

/-- C9 (counterexample): formatting a `Move` with its `Display` implementation and
parsing the text back does not succeed — the `Display` output has six whitespace
tokens, so `FromStr` rejects it with `TooManyParts 6` instead of returning the
original move. -/
theorem move_display_roundtrip_fails :
    Move.fromStr (Move.display mW9) = Except.error (ParseMoveError.TooManyParts 6)
    ∧ Move.fromStr (Move.display mW9) ≠ Except.ok mW9 := by
  constructor
  · rfl
  · decide

set_option maxRecDepth 10000 in
/-- C9 (amended): for every `Move` — every combination of player, size, source
(inventory or any cell) and target — rendering it in the five-token input format
the parser defines (`P1 S _ > 0,0` style) and parsing it back yields an equal
`Move`; the `Display` rendering itself is not parseable. -/
theorem move_canonical_roundtrip :
    ∀ m : Move, Move.fromStr (Move.canonicalText m) = Except.ok m := by
  decide

/-- C10: a move whose source equals its target is never accepted: if the mover's
piece of the move's size is present and uncovered there, the destination check
fails with `TargetBlocked`; in every other case some earlier check fails, so
`submit` always returns an error. -/
theorem no_self_move (g : Game) (m : Move) (h : m.source = some m.target) :
    (∃ e, (submit g m).snd = Except.error e)
    ∧ (g.victory = none → m.player = g.nextPlayer →
       (g.board.cells m.target).get m.size = some m.player →
       ((g.board.cells m.target).size.map
         (fun srcSize => decide (m.size.val < srcSize.val))).getD false = false →
       (submit g m).snd = Except.error SubmitMoveError.TargetBlocked) := by
  constructor
  · rcases hres : submit g m with ⟨g', r⟩
    cases r with
    | error e => exact ⟨e, rfl⟩
    | ok v =>
      exfalso
      rcases submit_ok_spec hres with ⟨hv, hturn, hpass, hdest, _, _⟩
      rcases sourcePasses_some hpass h with ⟨hgot, hunc⟩
      have hblocks := uncovered_blocks _ _ _ hgot hunc
      rw [hdest] at hblocks
      exact Bool.false_ne_true hblocks
  · intro hv hturn hgot hunc
    have hpass : sourcePasses g m := by
      unfold sourcePasses
      rw [h]
      exact ⟨hgot, hunc⟩
    exact (submit_targetBlocked_iff hv hturn hpass).mpr
      ((sizeCheckLe_true_iff _ _).mp (uncovered_blocks _ _ _ hgot hunc))

theorem no_self_move_witness :
    (submit gW10 mW10).snd = Except.error SubmitMoveError.TargetBlocked :=
  (no_self_move gW10 mW10 rfl).2 rfl rfl rfl rfl
